import Mathlib

/-!
Shallow embedding of the message-composition and file-attachment pipeline of
`src/pages/side-panel/src/components/ChatInput.tsx` (the ChatInput React
component), together with theorems settling the specification claims about it.

JavaScript strings are modelled as Lean `String`; the component state
(`text`, `attachedFiles`, plus the `disabled` prop consulted by the UI) is an
explicit record, and the event handlers are pure state-transition functions
that additionally return the arguments passed to the caller-supplied
callback (`onSendMessage`), when it is invoked.
-/

set_option maxRecDepth 10000

/-- The `AttachedFile` interface of ChatInput.tsx (lines 24-28):
`{ name: string; content: string; type: string }`. -/
structure AttachedFile where
  name : String
  content : String
  fileType : String
deriving DecidableEq, Repr

/-- The composer state: the `text` and `attachedFiles` React state hooks
(lines 43-44) plus the `disabled` prop (line 14), which the submit handler
itself never reads. -/
structure ComposerState where
  text : String
  attachedFiles : List AttachedFile
  disabled : Bool
deriving DecidableEq, Repr

/-- The whitespace predicate of JavaScript `String.prototype.trim`
(restricted to the ASCII whitespace characters, which are the only ones the
claims exercise). -/
def isJsWhitespace (c : Char) : Bool :=
  c = ' ' || c = '\t' || c = '\n' || c = '\r' || c = '\x0b' || c = '\x0c'

/-- JavaScript `s.trim()`: drop leading and trailing whitespace. -/
def jsTrim (s : String) : String :=
  String.mk (((s.data.dropWhile isJsWhitespace).reverse.dropWhile isJsWhitespace).reverse)

/-- JavaScript `Array.prototype.join(sep)`: the empty array joins to `""`,
a singleton to its element, and otherwise the separator is placed between
consecutive elements. -/
def jsJoin (sep : String) : List String → String
  | [] => ""
  | [s] => s
  | s :: rest => s ++ sep ++ jsJoin sep rest

/-- The per-attachment tagged block built in `handleSubmit` (line 96):
`` `\n\n<nano_file_content type="file" name="${file.name}">\n${file.content}\n</nano_file_content>` ``. -/
def fileContentBlock (f : AttachedFile) : String :=
  "\n\n<nano_file_content type=\"file\" name=\"" ++ f.name ++ "\">\n"
    ++ f.content ++ "\n</nano_file_content>"

/-- The paperclip glyph exactly as it appears in the source file at line 106.
The file's bytes there decode (as UTF-8) to the four characters
U+00F0 U+0178 U+201C U+017D — a mojibake rendering of 📎 (U+1F4CE). -/
def attachGlyph : String := "ðŸ“Ž"

/-- One line of the display file list (line 106): `` `ðŸ“Ž ${file.name}` ``. -/
def fileListLine (f : AttachedFile) : String :=
  attachGlyph ++ " " ++ f.name

/-- The `messageContent` value computed by `handleSubmit` (lines 87-103) from
the trimmed text and the attached files. -/
def messageContentOf (trimmedText : String) (files : List AttachedFile) : String :=
  if files.length > 0 then
    let fileContents := jsJoin "\n" (files.map fileContentBlock)
    if trimmedText ≠ "" then
      trimmedText ++ "\n\n<nano_attached_files>" ++ fileContents ++ "</nano_attached_files>"
    else
      "<nano_attached_files>" ++ fileContents ++ "</nano_attached_files>"
  else trimmedText

/-- The `displayContent` value computed by `handleSubmit` (lines 88-107). -/
def displayContentOf (trimmedText : String) (files : List AttachedFile) : String :=
  if files.length > 0 then
    let fileList := jsJoin "\n" (files.map fileListLine)
    if trimmedText ≠ "" then trimmedText ++ "\n\n" ++ fileList else fileList
  else trimmedText

/-- `handleSubmit` (lines 81-116): if the trimmed text is non-empty or at
least one file is attached, invoke `onSendMessage(messageContent,
displayContent)` and clear both state slots; otherwise do nothing. The
second component is the argument pair of the `onSendMessage` call (`none`
when the callback is not invoked). -/
def handleSubmit (s : ComposerState) : ComposerState × Option (String × String) :=
  let trimmedText := jsTrim s.text
  if trimmedText ≠ "" ∨ s.attachedFiles.length > 0 then
    ({ s with text := "", attachedFiles := [] },
      some (messageContentOf trimmedText s.attachedFiles,
            displayContentOf trimmedText s.attachedFiles))
  else (s, none)

/-- `isSendButtonDisabled` (lines 45-48):
`disabled || (text.trim() === '' && attachedFiles.length === 0)`. -/
def isSendButtonDisabled (s : ComposerState) : Bool :=
  s.disabled || (jsTrim s.text == "" && s.attachedFiles.length == 0)

example :
    handleSubmit ⟨"Hello", [⟨"a.txt", "hi", "text/plain"⟩], false⟩ =
      (⟨"", [], false⟩,
        some ("Hello\n\n<nano_attached_files>\n\n<nano_file_content type=\"file\" name=\"a.txt\">\nhi\n</nano_file_content></nano_attached_files>",
              "Hello\n\nðŸ“Ž a.txt")) := by
  decide

/-- The fields of a React keyboard event read by `handleKeyDown` (line 120):
`e.key`, `e.shiftKey` and `e.nativeEvent.isComposing`. -/
structure KeyboardEvent where
  key : String
  shiftKey : Bool
  isComposing : Bool
deriving DecidableEq, Repr

/-- The condition of `handleKeyDown` (line 120):
`e.key === 'Enter' && !e.shiftKey && !e.nativeEvent.isComposing`. -/
def keyTriggersSubmit (e : KeyboardEvent) : Bool :=
  e.key == "Enter" && !e.shiftKey && !e.isComposing

/-- `handleKeyDown` (lines 118-126): when the condition holds, the default
newline insertion is prevented and `handleSubmit` runs; otherwise the event
is passed through and the composer state is untouched. -/
def handleKeyDown (e : KeyboardEvent) (s : ComposerState) :
    ComposerState × Option (String × String) :=
  if keyTriggersSubmit e then handleSubmit s else (s, none)

/-- The fields of a selected browser `File` read by `handleFileChange`:
`file.name`, `file.size` (bytes), `file.type`, and the outcome of
`await file.text()` (`some content` on success, `none` when the read throws,
which the code catches and logs). -/
structure SelectedFile where
  name : String
  size : Nat
  fileType : String
  readResult : Option String
deriving DecidableEq, Repr

/-- JavaScript `name.split('.')` for the single-character separator `'.'`:
always returns at least one (possibly empty) segment. -/
def splitOnDot : List Char → List (List Char)
  | [] => [[]]
  | c :: cs =>
    match splitOnDot cs with
    | [] => [[]]
    | seg :: segs =>
      if c = '.' then [] :: seg :: segs else (c :: seg) :: segs

/-- The extension computed at line 147:
`'.' + file.name.split('.').pop()?.toLowerCase()` — a dot followed by the
lower-cased last segment of the dot-split name. -/
def fileExtOf (name : String) : String :=
  String.mk ('.' :: ((splitOnDot name.data).getLastD []).map Char.toLower)

/-- The `allowedTypes` array at line 143. -/
def allowedTypes : List String :=
  [".txt", ".md", ".markdown", ".json", ".csv", ".log", ".xml", ".yaml", ".yml"]

/-- One iteration of the `handleFileChange` loop (lines 145-171): skip the
file when its extension is not allowed, when it exceeds 1 MiB, or when the
read fails; otherwise produce the `AttachedFile` entry, with
`file.type || 'text/plain'` as its type. -/
def processFile (f : SelectedFile) : Option AttachedFile :=
  if !(allowedTypes.contains (fileExtOf f.name)) then none
  else if f.size > 1024 * 1024 then none
  else
    match f.readResult with
    | some content =>
      some { name := f.name, content := content,
             fileType := if f.fileType ≠ "" then f.fileType else "text/plain" }
    | none => none

/-- The `newFiles` array accumulated by the loop of `handleFileChange`, in
iteration order. -/
def collectNewFiles : List SelectedFile → List AttachedFile
  | [] => []
  | f :: rest =>
    match processFile f with
    | some af => af :: collectNewFiles rest
    | none => collectNewFiles rest

/-- `handleFileChange` (lines 138-181) as a transformation of the
`attachedFiles` state: an empty selection returns early; otherwise the
accepted files are appended (the `newFiles.length > 0` guard at line 173). -/
def handleFileChange (files : List SelectedFile) (prev : List AttachedFile) :
    List AttachedFile :=
  if files.length = 0 then prev
  else
    let newFiles := collectNewFiles files
    if newFiles.length > 0 then prev ++ newFiles else prev

/-- The indexed filter underlying `handleRemoveFile`:
`prev.filter((_, i) => i !== index)`, with `i` counting from the given
starting position. -/
def filterWithIdx (keep : Nat → Bool) : Nat → List AttachedFile → List AttachedFile
  | _, [] => []
  | i, a :: as =>
    if keep i then a :: filterWithIdx keep (i + 1) as else filterWithIdx keep (i + 1) as

/-- `handleRemoveFile` (lines 183-185):
`setAttachedFiles(prev => prev.filter((_, i) => i !== index))`. -/
def handleRemoveFile (index : Nat) (prev : List AttachedFile) : List AttachedFile :=
  filterWithIdx (fun i => i != index) 0 prev

example : fileExtOf "README" = ".readme" := by decide
example : fileExtOf "notes.v2.YML" = ".yml" := by decide
example : fileExtOf "" = "." := by decide
example : fileExtOf ".gitignore" = ".gitignore" := by decide
example : processFile ⟨"virus.exe", 10, "", some "MZ"⟩ = none := by decide
example :
    handleFileChange [⟨"a.txt", 2, "", some "hi"⟩] [] =
      [⟨"a.txt", "hi", "text/plain"⟩] := by decide
example : handleRemoveFile 1 [⟨"a", "", ""⟩, ⟨"b", "", ""⟩, ⟨"c", "", ""⟩] =
    [⟨"a", "", ""⟩, ⟨"c", "", ""⟩] := by decide
example : handleRemoveFile 7 [⟨"a", "", ""⟩, ⟨"b", "", ""⟩] =
    [⟨"a", "", ""⟩, ⟨"b", "", ""⟩] := by decide

/-- `containsInOrder s ps`: the strings of `ps` occur in `s` as pairwise
disjoint segments, in the given order. -/
def containsInOrder : List Char → List (List Char) → Prop
  | _, [] => True
  | s, p :: ps => ∃ pre suf, s = pre ++ p ++ suf ∧ containsInOrder suf ps

theorem containsInOrder_append_left (t s : List Char) (ps : List (List Char))
    (h : containsInOrder s ps) : containsInOrder (t ++ s) ps := by
  cases ps with
  | nil => trivial
  | cons p ps =>
    obtain ⟨pre, suf, hs, hrest⟩ := h
    exact ⟨t ++ pre, suf, by simp [hs], hrest⟩

theorem containsInOrder_append_right (s t : List Char) (ps : List (List Char))
    (h : containsInOrder s ps) : containsInOrder (s ++ t) ps := by
  induction ps generalizing s with
  | nil => trivial
  | cons p ps ih =>
    obtain ⟨pre, suf, hs, hrest⟩ := h
    exact ⟨pre, suf ++ t, by simp [hs], ih suf hrest⟩

/-- The pieces passed to `Array.prototype.join` occur, in order and
disjointly, in its result. -/
theorem jsJoin_containsInOrder (sep : String) (l : List String) :
    containsInOrder (jsJoin sep l).data (l.map String.data) := by
  induction l with
  | nil => trivial
  | cons s rest ih =>
    cases rest with
    | nil => exact ⟨[], [], by simp [jsJoin], trivial⟩
    | cons s2 rest2 =>
      refine ⟨[], sep.data ++ (jsJoin sep (s2 :: rest2)).data, ?_, ?_⟩
      · simp [jsJoin, String.data_append]
      · exact containsInOrder_append_left _ _ _ ih

/-- `leadsList p s`: `p` is an initial segment of `s` (an executable check
used to phrase the substring counterexamples). -/
def leadsList : List Char → List Char → Bool
  | [], _ => true
  | _ :: _, [] => false
  | a :: ps, b :: ss => a = b && leadsList ps ss

/-- `occursIn p s`: `p` occurs somewhere in `s` as a contiguous segment. -/
def occursIn (p : List Char) : List Char → Bool
  | [] => leadsList p []
  | b :: ss => leadsList p (b :: ss) || occursIn p ss

example : occursIn "hi".data (fileListLine ⟨"hi", "hi", "t"⟩).data = true := by decide

/-- Characterisation of the indexed filter of `handleRemoveFile`: starting
the index count at `base`, it removes the element at offset
`index - base` (and is the identity when `index` lies before `base` or past
the end). -/
theorem filterWithIdx_ne_eq (index : Nat) (l : List AttachedFile) :
    ∀ base : Nat, filterWithIdx (fun i => i != index) base l =
      if index < base then l
      else l.take (index - base) ++ l.drop (index - base + 1) := by
  induction l with
  | nil =>
    intro base
    by_cases h : index < base <;> simp [filterWithIdx, h]
  | cons a as ih =>
    intro base
    rcases Nat.lt_trichotomy base index with hlt | heq | hgt
    · have h1 : ¬ index < base := by omega
      have h2 : ¬ index < base + 1 := by omega
      have hne : (base != index) = true := by simp; omega
      have hk : index - base = (index - (base + 1)) + 1 := by omega
      simp only [filterWithIdx, hne, if_true]
      rw [ih (base + 1), if_neg h2, if_neg h1, hk,
        List.take_succ_cons, List.drop_succ_cons]
      simp
    · subst heq
      have h1 : ¬ base < base := Nat.lt_irrefl base
      have hne : (base != base) = false := by simp
      simp only [filterWithIdx, hne, Bool.false_eq_true, if_false]
      rw [ih (base + 1), if_pos (Nat.lt_succ_self base), if_neg h1]
      simp
    · have h2 : index < base + 1 := by omega
      have hne : (base != index) = true := by simp; omega
      simp only [filterWithIdx, hne, if_true]
      rw [ih (base + 1), if_pos h2, if_pos hgt]

/-- `handleRemoveFile` in closed form: element `index` is cut out (a no-op
when `index` is past the end). -/
theorem handleRemoveFile_eq (index : Nat) (prev : List AttachedFile) :
    handleRemoveFile index prev = prev.take index ++ prev.drop (index + 1) := by
  unfold handleRemoveFile
  rw [filterWithIdx_ne_eq index prev 0, if_neg (Nat.not_lt_zero index)]
  simp

/-- Splitting a dot-free character list on `'.'` yields the list itself as
the only segment. -/
theorem splitOnDot_no_dot (l : List Char) (h : ∀ c ∈ l, c ≠ '.') :
    splitOnDot l = [l] := by
  induction l with
  | nil => rfl
  | cons c cs ih =>
    have hc : c ≠ '.' := h c (by simp)
    have ihcs : splitOnDot cs = [cs] := ih (fun x hx => h x (by simp [hx]))
    simp [splitOnDot, ihcs, hc]

/-- `handleFileChange` always appends exactly the accepted files, in
selection order (the two early-return guards change nothing). -/
theorem handleFileChange_eq (files : List SelectedFile) (prev : List AttachedFile) :
    handleFileChange files prev = prev ++ collectNewFiles files := by
  unfold handleFileChange
  cases files with
  | nil => simp [collectNewFiles]
  | cons f fs =>
    rw [if_neg (by simp)]
    by_cases h : (collectNewFiles (f :: fs)).length > 0
    · rw [if_pos h]
    · rw [if_neg h]
      have hnil : collectNewFiles (f :: fs) = [] := List.length_eq_zero.mp (by omega)
      simp [hnil]

/-- The display line of an attachment does not depend on its content. -/
theorem map_fileListLine_erase_content (A : List AttachedFile) :
    A.map (fun a => fileListLine ⟨a.name, "", a.fileType⟩) = A.map fileListLine := by
  simp [fileListLine]

/-- C3: with an empty attachment sequence and non-empty trimmed text,
`handleSubmit` invokes the send callback with payload and display both equal
to the trimmed text. -/
theorem submit_no_attachments_payload_eq_display (s : ComposerState)
    (hA : s.attachedFiles = []) (hT : jsTrim s.text ≠ "") :
    (handleSubmit s).2 = some (jsTrim s.text, jsTrim s.text) := by
  simp only [handleSubmit]
  rw [if_pos (Or.inl hT)]
  simp [messageContentOf, displayContentOf, hA]

theorem submit_no_attachments_payload_eq_display_witness :
    (handleSubmit ⟨"  Hello  ", [], false⟩).2 = some (jsTrim "  Hello  ", jsTrim "  Hello  ") :=
  submit_no_attachments_payload_eq_display ⟨"  Hello  ", [], false⟩ rfl (by decide)

/-- C4: whenever the submit guard holds (trimmed text non-empty or at least
one attachment), `handleSubmit` resets the text buffer to `""` and the
attachment sequence to `[]`. -/
theorem submit_resets_state (s : ComposerState)
    (h : jsTrim s.text ≠ "" ∨ s.attachedFiles.length > 0) :
    (handleSubmit s).1.text = "" ∧ (handleSubmit s).1.attachedFiles = [] := by
  simp only [handleSubmit]
  rw [if_pos h]
  exact ⟨rfl, rfl⟩

theorem submit_resets_state_witness :
    (handleSubmit ⟨"go", [⟨"a.txt", "hi", "text/plain"⟩], false⟩).1.text = "" ∧
    (handleSubmit ⟨"go", [⟨"a.txt", "hi", "text/plain"⟩], false⟩).1.attachedFiles = [] :=
  submit_resets_state ⟨"go", [⟨"a.txt", "hi", "text/plain"⟩], false⟩ (by left; decide)

/-- C5: with empty trimmed text and no attachments, `handleSubmit` is a
no-op: the callback is not invoked and the state is returned unchanged. -/
theorem submit_empty_noop (s : ComposerState)
    (hT : jsTrim s.text = "") (hA : s.attachedFiles = []) :
    handleSubmit s = (s, none) := by
  simp only [handleSubmit]
  rw [if_neg]
  simp [hT, hA]

theorem submit_empty_noop_witness :
    handleSubmit ⟨"   ", [], true⟩ = (⟨"   ", [], true⟩, none) :=
  submit_empty_noop ⟨"   ", [], true⟩ (by decide) rfl

/-- C8: the keydown handler runs `handleSubmit` exactly when the key is
`"Enter"`, Shift is not held and no input-method composition is in progress;
Shift+Enter never triggers it, and any non-triggering key leaves the state
untouched and sends nothing. -/
theorem enter_key_triggers_submit :
    (∀ e : KeyboardEvent,
      keyTriggersSubmit e = true ↔
        (e.key = "Enter" ∧ e.shiftKey = false ∧ e.isComposing = false)) ∧
    (∀ e : KeyboardEvent, e.shiftKey = true → keyTriggersSubmit e = false) ∧
    (∀ (e : KeyboardEvent) (s : ComposerState),
      keyTriggersSubmit e = true → handleKeyDown e s = handleSubmit s) ∧
    (∀ (e : KeyboardEvent) (s : ComposerState),
      keyTriggersSubmit e = false → handleKeyDown e s = (s, none)) := by
  refine ⟨?_, ?_, ?_, ?_⟩
  · intro e
    simp [keyTriggersSubmit, and_assoc]
  · intro e h
    simp [keyTriggersSubmit, h]
  · intro e s h
    simp [handleKeyDown, h]
  · intro e s h
    simp [handleKeyDown, h]

theorem enter_key_triggers_submit_witness :
    keyTriggersSubmit ⟨"Enter", true, false⟩ = false ∧
    handleKeyDown ⟨"Enter", false, false⟩ ⟨"hi", [], false⟩ =
      handleSubmit ⟨"hi", [], false⟩ :=
  ⟨enter_key_triggers_submit.2.1 ⟨"Enter", true, false⟩ rfl,
    enter_key_triggers_submit.2.2.1 ⟨"Enter", false, false⟩ ⟨"hi", [], false⟩ (by decide)⟩

/-- C10: `handleSubmit` never reads the `disabled` flag: even with
`disabled = true`, when the guard holds it still invokes the callback with
the derived payload and display and clears both state slots; the
`not disabled` precondition lives only in `isSendButtonDisabled`, which is
`true` for every disabled state. -/
theorem submit_ignores_disabled_flag (s : ComposerState)
    (hd : s.disabled = true)
    (h : jsTrim s.text ≠ "" ∨ s.attachedFiles.length > 0) :
    (handleSubmit s).2 =
      some (messageContentOf (jsTrim s.text) s.attachedFiles,
            displayContentOf (jsTrim s.text) s.attachedFiles) ∧
    (handleSubmit s).1.text = "" ∧ (handleSubmit s).1.attachedFiles = [] ∧
    isSendButtonDisabled s = true := by
  simp only [handleSubmit]
  rw [if_pos h]
  exact ⟨rfl, rfl, rfl, by simp [isSendButtonDisabled, hd]⟩

theorem submit_ignores_disabled_flag_witness :
    (handleSubmit ⟨"hi", [], true⟩).2 =
      some (messageContentOf (jsTrim "hi") [], displayContentOf (jsTrim "hi") []) ∧
    (handleSubmit ⟨"hi", [], true⟩).1.text = "" ∧
    (handleSubmit ⟨"hi", [], true⟩).1.attachedFiles = [] ∧
    isSendButtonDisabled ⟨"hi", [], true⟩ = true :=
  submit_ignores_disabled_flag ⟨"hi", [], true⟩ rfl (by left; decide)

/-- C6: `handleFileChange` appends exactly the accepted files of the
selection (in order) to the existing sequence; a selected file is accepted
iff its extension is in the allowed set, its size is at most 1 MiB, and its
content read succeeds; in particular a `.exe` file and an oversize file
change nothing, and a rejected file does not stop later accepted files of
the same selection from being appended. -/
theorem attach_filter_spec :
    (∀ (files : List SelectedFile) (prev : List AttachedFile),
      handleFileChange files prev = prev ++ collectNewFiles files) ∧
    (∀ f : SelectedFile,
      (processFile f).isSome ↔
        (allowedTypes.contains (fileExtOf f.name) = true ∧
          f.size ≤ 1024 * 1024 ∧ f.readResult.isSome)) ∧
    (∀ prev : List AttachedFile,
      handleFileChange [⟨"virus.exe", 10, "application/x-msdownload", some "MZ"⟩] prev = prev) ∧
    (∀ prev : List AttachedFile,
      handleFileChange [⟨"big.txt", 1024 * 1024 + 1, "text/plain", some "x"⟩] prev = prev) ∧
    (∀ prev : List AttachedFile,
      handleFileChange
          [⟨"virus.exe", 10, "", some "MZ"⟩, ⟨"notes.md", 5, "", some "note"⟩] prev =
        prev ++ [⟨"notes.md", "note", "text/plain"⟩]) := by
  refine ⟨handleFileChange_eq, ?_, ?_, ?_, ?_⟩
  · intro f
    unfold processFile
    by_cases hext : fileExtOf f.name ∈ allowedTypes
    · by_cases hsize : 1024 * 1024 < f.size
      · simp [hext, hsize]
      · cases hr : f.readResult
        · simp [hext, hsize, hr]
        · simp [hext, hsize, hr]
          omega
    · simp [hext]
  · intro prev
    rw [handleFileChange_eq]
    have : collectNewFiles [⟨"virus.exe", 10, "application/x-msdownload", some "MZ"⟩] = [] := by
      decide
    simp [this]
  · intro prev
    rw [handleFileChange_eq]
    have : collectNewFiles [⟨"big.txt", 1024 * 1024 + 1, "text/plain", some "x"⟩] = [] := by
      decide
    simp [this]
  · intro prev
    rw [handleFileChange_eq]
    have : collectNewFiles [⟨"virus.exe", 10, "", some "MZ"⟩, ⟨"notes.md", 5, "", some "note"⟩] =
        [⟨"notes.md", "note", "text/plain"⟩] := by decide
    simp [this]

/-- C7: removing at a valid index cuts out exactly the element at that
position, keeping the relative order (the result is the prefix before the
index followed by the suffix after it) and shrinking the length by one;
removing at an out-of-range index changes nothing. -/
theorem remove_at_index_spec (prev : List AttachedFile) (index : Nat) :
    (index < prev.length →
      handleRemoveFile index prev = prev.take index ++ prev.drop (index + 1) ∧
      (handleRemoveFile index prev).length = prev.length - 1) ∧
    (prev.length ≤ index → handleRemoveFile index prev = prev) := by
  constructor
  · intro h
    refine ⟨handleRemoveFile_eq index prev, ?_⟩
    rw [handleRemoveFile_eq index prev]
    simp only [List.length_append, List.length_take, List.length_drop]
    omega
  · intro h
    rw [handleRemoveFile_eq index prev,
      List.take_of_length_le h, List.drop_of_length_le (by omega)]
    simp

theorem remove_at_index_spec_witness :
    (handleRemoveFile 1 [⟨"a", "", ""⟩, ⟨"b", "", ""⟩, ⟨"c", "", ""⟩] =
        List.take 1 [⟨"a", "", ""⟩, ⟨"b", "", ""⟩, ⟨"c", "", ""⟩] ++
          List.drop 2 [⟨"a", "", ""⟩, ⟨"b", "", ""⟩, ⟨"c", "", ""⟩] ∧
      (handleRemoveFile 1 [⟨"a", "", ""⟩, ⟨"b", "", ""⟩, ⟨"c", "", ""⟩]).length = 2) ∧
    handleRemoveFile 5 [⟨"a", "", ""⟩, ⟨"b", "", ""⟩, ⟨"c", "", ""⟩] =
      [⟨"a", "", ""⟩, ⟨"b", "", ""⟩, ⟨"c", "", ""⟩] :=
  ⟨(remove_at_index_spec [⟨"a", "", ""⟩, ⟨"b", "", ""⟩, ⟨"c", "", ""⟩] 1).1 (by decide),
    (remove_at_index_spec [⟨"a", "", ""⟩, ⟨"b", "", ""⟩, ⟨"c", "", ""⟩] 5).2 (by decide)⟩

/-- C9: for a dot-free filename the computed extension is a dot followed by
the entire lower-cased name; hence `README` is rejected while a file whose
whole name is `txt` gets extension `.txt` and is accepted. -/
theorem ext_of_dotless_name :
    (∀ name : String, (∀ c ∈ name.data, c ≠ '.') →
      fileExtOf name = String.mk ('.' :: name.data.map Char.toLower)) ∧
    processFile ⟨"README", 5, "", some "contents"⟩ = none ∧
    processFile ⟨"txt", 2, "", some "hello"⟩ = some ⟨"txt", "hello", "text/plain"⟩ := by
  refine ⟨?_, by decide, by decide⟩
  intro name h
  unfold fileExtOf
  rw [splitOnDot_no_dot name.data h]
  rfl

theorem ext_of_dotless_name_witness :
    fileExtOf "README" = String.mk ('.' :: "README".data.map Char.toLower) :=
  ext_of_dotless_name.1 "README" (by decide)

/-- The payload construction in the spec's own shape (per-attachment tagged
block, blocks joined by a newline, wrapped in the envelope, prefixed by the
trimmed text and two newlines when it is non-empty), with the tag names the
source actually uses. -/
def payloadSpec (T : String) (A : List AttachedFile) : String :=
  let envelope :=
    "<nano_attached_files>" ++ jsJoin "\n" (A.map fileContentBlock) ++ "</nano_attached_files>"
  if T = "" then envelope else T ++ "\n\n" ++ envelope

/-- The display construction in the spec's own shape: one glyph-prefixed
line per attachment name, prefixed by the trimmed text and two newlines
when it is non-empty. -/
def displaySpec (T : String) (A : List AttachedFile) : String :=
  let bullets := jsJoin "\n" (A.map fileListLine)
  if T = "" then bullets else T ++ "\n\n" ++ bullets

/-- C1 counterexample: on the claim's own scenario — text `"Hello"` with
the single attachment `{name: "a.txt", content: "hi"}` — the submitted pair
is not the claimed one: the source tags are `<nano_attached_files>` and
`<nano_file_content type="file" name=...>`, not `<attached-files>` and
`<file-content name=...>`, and the display glyph is the mojibake sequence
the source contains, not 📎. -/
theorem submit_exact_strings_counterexample :
    (handleSubmit ⟨"Hello", [⟨"a.txt", "hi", "text/plain"⟩], false⟩).2 ≠
      some ("Hello\n\n<attached-files>\n\n<file-content name=\"a.txt\">\nhi\n</file-content></attached-files>",
            "Hello\n\n📎 a.txt") := by
  decide

/-- C1 amended: the payload and display computed by `handleSubmit` on a
non-empty attachment sequence follow the spec's construction with the
source's actual tag names and block separator, and on the scenario text
`"Hello"` with attachment `{name: "a.txt", content: "hi"}` the exact pair
is the one below. -/
theorem submit_payload_construction :
    (∀ (T : String) (A : List AttachedFile), A.length > 0 →
      messageContentOf T A = payloadSpec T A ∧ displayContentOf T A = displaySpec T A) ∧
    (handleSubmit ⟨"Hello", [⟨"a.txt", "hi", "text/plain"⟩], false⟩).2 =
      some ("Hello\n\n<nano_attached_files>\n\n<nano_file_content type=\"file\" name=\"a.txt\">\nhi\n</nano_file_content></nano_attached_files>",
            "Hello\n\nðŸ“Ž a.txt") := by
  constructor
  · intro T A hA
    by_cases hT : T = ""
    · simp [messageContentOf, displayContentOf, payloadSpec, displaySpec, hA, hT]
    · simp only [messageContentOf, displayContentOf, payloadSpec, displaySpec, hA, hT,
        if_true, if_false, gt_iff_lt, ne_eq, not_false_eq_true]
      refine ⟨?_, trivial⟩
      apply String.ext
      simp [String.data_append]
  · decide

theorem submit_payload_construction_witness :
    messageContentOf "Hello" [⟨"a.txt", "hi", "text/plain"⟩] =
      payloadSpec "Hello" [⟨"a.txt", "hi", "text/plain"⟩] ∧
    displayContentOf "Hello" [⟨"a.txt", "hi", "text/plain"⟩] =
      displaySpec "Hello" [⟨"a.txt", "hi", "text/plain"⟩] :=
  submit_payload_construction.1 "Hello" [⟨"a.txt", "hi", "text/plain"⟩] (by decide)

/-- C2 counterexample: the display can contain an attachment's content.
With empty text and the single attachment `{name: "hi", content: "hi"}` the
display is the glyph line for `"hi"`, and the content `"hi"` occurs in it —
refuting the claim that the display never contains any attachment's
content. -/
theorem display_contains_content_counterexample :
    (handleSubmit ⟨"", [⟨"hi", "hi", "text/plain"⟩], false⟩).2.map Prod.snd =
      some (attachGlyph ++ " hi") ∧
    occursIn "hi".data (attachGlyph ++ " hi").data = true := by
  decide

/-- C2 amended: for every text and non-empty attachment sequence, the
payload contains the full tagged block of every attachment (hence every
content, inside its own block) as pairwise disjoint segments in sequence
order; the display likewise contains the glyph-prefixed line of every
attachment name, in order; and the display never reads the content fields —
it is unchanged when every content is replaced by the empty string (so a
content can reach the display only by coinciding with text or names already
in it, as in the counterexample). -/
theorem submit_blocks_in_order (T : String) (A : List AttachedFile)
    (hA : A.length > 0) :
    containsInOrder (messageContentOf T A).data
      (A.map fun a => (fileContentBlock a).data) ∧
    containsInOrder (displayContentOf T A).data
      (A.map fun a => (fileListLine a).data) ∧
    displayContentOf T A =
      displayContentOf T (A.map fun a => ⟨a.name, "", a.fileType⟩) := by
  have hblocks : containsInOrder (jsJoin "\n" (A.map fileContentBlock)).data
      (A.map fun a => (fileContentBlock a).data) := by
    simpa [List.map_map, Function.comp] using
      jsJoin_containsInOrder "\n" (A.map fileContentBlock)
  have hlines : containsInOrder (jsJoin "\n" (A.map fileListLine)).data
      (A.map fun a => (fileListLine a).data) := by
    simpa [List.map_map, Function.comp] using
      jsJoin_containsInOrder "\n" (A.map fileListLine)
  refine ⟨?_, ?_, ?_⟩
  · by_cases hT : T = "" <;>
      · simp only [messageContentOf, hA, hT, if_true, if_false, gt_iff_lt, ne_eq,
          not_false_eq_true, not_true_eq_false]
        simp only [String.data_append, List.append_assoc]
        first
        | exact containsInOrder_append_left _ _ _
            (containsInOrder_append_right _ _ _ hblocks)
        | exact containsInOrder_append_left _ _ _ (containsInOrder_append_left _ _ _
            (containsInOrder_append_right _ _ _ hblocks))
  · by_cases hT : T = "" <;>
      · simp only [displayContentOf, hA, hT, if_true, if_false, gt_iff_lt, ne_eq,
          not_false_eq_true, not_true_eq_false]
        first
        | exact hlines
        | · simp only [String.data_append, List.append_assoc]
            exact containsInOrder_append_left _ _ _
              (containsInOrder_append_left _ _ _ hlines)
  · have hmap : (A.map fun a => (⟨a.name, "", a.fileType⟩ : AttachedFile)).map fileListLine =
        A.map fileListLine := by
      simpa [List.map_map, Function.comp] using map_fileListLine_erase_content A
    simp [displayContentOf, List.length_map, hmap]

theorem submit_blocks_in_order_witness :
    containsInOrder (messageContentOf "Hello" [⟨"a.txt", "hi", "text/plain"⟩]).data
      ([⟨"a.txt", "hi", "text/plain"⟩].map fun a => (fileContentBlock a).data) ∧
    containsInOrder (displayContentOf "Hello" [⟨"a.txt", "hi", "text/plain"⟩]).data
      ([⟨"a.txt", "hi", "text/plain"⟩].map fun a => (fileListLine a).data) ∧
    displayContentOf "Hello" [⟨"a.txt", "hi", "text/plain"⟩] =
      displayContentOf "Hello"
        (([⟨"a.txt", "hi", "text/plain"⟩] : List AttachedFile).map
          fun a => (⟨a.name, "", a.fileType⟩ : AttachedFile)) :=
  submit_blocks_in_order "Hello" [⟨"a.txt", "hi", "text/plain"⟩] (by decide)
